import Mathlib

/-!
# domproxy: rendering gateway with a TTL cache

A development over `main.go`: the HTTP handler registered in `main` and the
render routine `fetchHTML`.  The browser session (`godet`) and the cache
(`go-cache`) are libraries outside the program text; the session is taken as a
script of responses, the cache is modelled from the specification (section 4.1).

Conventions.
* Go `string` is `String`; `[]byte` is `Bytes`; `[]byte(s)` is `bytesOf s`.
* Times and durations are nanoseconds in `Nat` (`time.Duration`, `UnixNano`);
  the `int64` range is not modelled.
* The pair `(*Tab, error)` returned by `NewTab` is a pair of options (`none` is
  `nil`), because the program goes on to use the tab after an error; the other
  session calls use their value only when the error is `nil` and are `Except`.
* JSON numbers (`float64`) are rationals; the conversion `int(x)` truncates
  toward zero.  NaN, infinities and values outside `int` are not modelled.
-/

namespace Domproxy

/-! ## Basic data -/

/-- Go `[]byte`. -/
abbrev Bytes := List UInt8

/-- Go conversion `[]byte(s)`: the UTF-8 bytes of the string. -/
def bytesOf (s : String) : Bytes := s.toUTF8.data.toList

/-- Go `time.Minute`, in nanoseconds. -/
def minute : Nat := 60 * 1000000000

/-- The argument `5*time.Minute` of `cache.New` in `main`. -/
def fiveMinutes : Nat := 5 * minute

/-! ## TTL cache -/

/-- Modelled from the spec: a `CacheEntry` of the go-cache library (not part of
the program text): an opaque byte value and its fixed expiration instant, which is
creation time plus TTL. -/
structure Item where
  value : Bytes
  expiration : Nat
deriving DecidableEq, Repr

/-- Modelled from the spec: the go-cache store (not part of the program text), a
process-lifetime map from URL string, used verbatim, to an entry, together with
the default TTL it was created with. -/
structure Cache where
  defaultExpiration : Nat
  items : String → Option Item

namespace Cache

/-- Modelled from the spec: `cache.New(defaultExpiration, cleanupInterval)` of
go-cache, an empty store.  The cleanup interval only schedules the background
sweep, which is the operation `DeleteExpired` below. -/
def New (defaultExpiration _cleanupInterval : Nat) : Cache :=
  { defaultExpiration := defaultExpiration, items := fun _ => none }

/-- Modelled from the spec: `Get(key) -> (value, found)` of go-cache; returns the
cached bytes when an unexpired entry exists for `key`, an entry being visible
only while `now < expiration`.  `none` is `found = false`. -/
def Get (c : Cache) (key : String) (now : Nat) : Option Bytes :=
  match c.items key with
  | some it => if now < it.expiration then some it.value else none
  | none => none

/-- Modelled from the spec: `Set(key, value, ttl)` of go-cache; inserts or
replaces the entry for `key`, valid until `now + ttl`.  The duration `none` is
`cache.DefaultExpiration`, which stands for the TTL given to `New`. -/
def Set (c : Cache) (key : String) (value : Bytes) (d : Option Nat) (now : Nat) : Cache :=
  let ttl := match d with
    | some ttl => ttl
    | none => c.defaultExpiration
  { c with items := fun k => if k = key then some ⟨value, now + ttl⟩ else c.items k }

/-- Modelled from the spec: the background sweep of go-cache, which physically
removes the entries that are expired at `now`. -/
def DeleteExpired (c : Cache) (now : Nat) : Cache :=
  { c with items := fun k =>
      match c.items k with
      | some it => if now < it.expiration then some it else none
      | none => none }

end Cache

/-- What can happen to the cache between two reads: a store by the gateway
(always with `cache.DefaultExpiration`) or a background sweep, each at its own
instant. -/
inductive CacheOp where
  | set (key : String) (value : Bytes) (now : Nat)
  | sweep (now : Nat)
deriving DecidableEq, Repr

namespace CacheOp

/-- The instant at which the operation happens. -/
def time : CacheOp → Nat
  | set _ _ now => now
  | sweep now => now

/-- Whether the operation stores under `key`. -/
def storesKey (key : String) : CacheOp → Bool
  | set k _ _ => k == key
  | sweep _ => false

/-- The cache after the operation. -/
def apply (c : Cache) : CacheOp → Cache
  | set k v now => c.Set k v none now
  | sweep now => c.DeleteExpired now

end CacheOp

/-- The cache after a sequence of operations, oldest first. -/
def Cache.run (c : Cache) (ops : List CacheOp) : Cache :=
  ops.foldl CacheOp.apply c

/-- The cache `c` of `main`: `cache.New(5*time.Minute, 5*time.Minute)`. -/
def mainCache : Cache := Cache.New fiveMinutes fiveMinutes

/-! ## Browser session -/

/-- Go `error` values of the session; the program only tests them against `nil`
and logs them. -/
abbrev GoError := String

/-- The fields of `godet.Tab` the program reads. -/
structure Tab where
  ID : String
  URL : String
deriving DecidableEq, Repr

/-- A decoded JSON value (`interface{}` as produced by `encoding/json`); objects
are `map[string]interface{}`, listed in iteration order. -/
inductive JVal where
  | null
  | bool (b : Bool)
  | num (x : ℚ)
  | str (s : String)
  | arr (xs : List JVal)
  | obj (fields : List (String × JVal))

/-- The type `godet.Params`, a `map[string]interface{}`. -/
abbrev Params := List (String × JVal)

/-- Go conversion `int(x)` of a `float64`: the fraction is discarded. -/
def goInt (x : ℚ) : Int := Int.tdiv x.num x.den

/-- What the session answers while one `Page.loadEventFired` callback runs. -/
structure LoadEvent where
  getDocument : Except GoError Params
  getOuterHTML : Int → Except GoError String

/-- The responses of the browser session (`*godet.RemoteDebugger`) during one render:
the result of `NewTab`, of `PageEvents(true)`, and the load events it delivers,
in order.  The result of `CloseTab` is discarded by the program. -/
structure RemoteDebugger where
  newTab : String → Option Tab × Option GoError
  pageEvents : Option GoError
  loadEvents : List LoadEvent

/-- The observable actions of a render, in program order. -/
inductive Event where
  | lock
  | unlock
  | newTab (url : String)
  | closeTab (tab : Option Tab)
  | pageEvents (enable : Bool)
  | callbackEvent (name : String)
  | sleep (ns : Nat)
  | getDocument
  | getOuterHTML (nodeId : Int)
  | log (what : String)
deriving DecidableEq, Repr

namespace Event

/-- A call of `chrome.NewTab`. -/
def isTabOpen : Event → Bool
  | newTab _ => true
  | _ => false

/-- A call of `chrome.CloseTab`. -/
def isTabClose : Event → Bool
  | closeTab _ => true
  | _ => false

/-- A call of `chrome.GetOuterHTML`. -/
def isOuterHTMLFetch : Event → Bool
  | getOuterHTML _ => true
  | _ => false

end Event

/-! ## The load-event callback -/

/-- One iteration of `for n, e := range o` in the callback.  The state is
`rootNodeId`; `none` means the type assertion `x["nodeId"].(float64)` panicked. -/
def rootStep (rootNodeId : Option Int) (ne : String × JVal) : Option Int :=
  match rootNodeId with
  | none => none
  | some r =>
    if ne.1 = "root" then
      match ne.2 with
      | .obj x =>
        match x.lookup "nodeId" with
        | some (.num f) => some (goInt f)
        | _ => none
      | _ => some r
    else some r

/-- The loop resolving the root node identifier, started from `rootNodeId := -1`. -/
def resolveRootNodeId (o : Params) : Option Int :=
  o.foldl rootStep (some (-1))

/-- How one run of the callback ends. -/
inductive CallbackEnd where
  | signalled (html : String)
  | returnedEarly
  | panicked
deriving DecidableEq, Repr

/-- The function passed to `chrome.CallbackEvent("Page.loadEventFired", ...)`:
its actions and how it ends.  `signalled html` is `out.Write([]byte(html))`
followed by `done <- true`. -/
def loadEventFired (ev : LoadEvent) : List Event × CallbackEnd :=
  match ev.getDocument with
  | .error _ => ([.sleep 100000000, .getDocument, .log "chrome.GetDocument"], .returnedEarly)
  | .ok o =>
    match resolveRootNodeId o with
    | none => ([.sleep 100000000, .getDocument], .panicked)
    | some rootNodeId =>
      match ev.getOuterHTML rootNodeId with
      | .error _ =>
        ([.sleep 100000000, .getDocument, .getOuterHTML rootNodeId, .log "chrome.GetOuterHTML"],
          .returnedEarly)
      | .ok html =>
        ([.sleep 100000000, .getDocument, .getOuterHTML rootNodeId], .signalled html)

/-! ## fetchHTML -/

/-- How a call of `fetchHTML` ends. -/
inductive Outcome where
  /-- The call returned `(out, err)`. -/
  | returned (out : Bytes) (err : Option GoError)
  /-- The call waits on `<-done` and no load event is left to signal it. -/
  | blocked
  /-- A nil `tab` was dereferenced in `fetchHTML`; the deferred calls ran. -/
  | panicked
  /-- The callback panicked in the event goroutine. -/
  | crashed
deriving DecidableEq, Repr

/-- The actions of a call and its end. -/
structure FetchRun where
  trace : List Event
  outcome : Outcome
deriving DecidableEq, Repr

/-- How the wait `<-done` ends. -/
inductive WaitEnd where
  | done (out : Bytes)
  | blocked
  | crashed
deriving DecidableEq, Repr

/-- The wait `<-done`: the session delivers its load events in order to the
registered callback until one of them signals; `out` is the buffer. -/
def awaitDone (out : Bytes) : List LoadEvent → List Event × WaitEnd
  | [] => ([], .blocked)
  | ev :: rest =>
    match loadEventFired ev with
    | (tr, .signalled html) => (tr, .done (out ++ bytesOf html))
    | (tr, .returnedEarly) => (tr ++ (awaitDone out rest).1, (awaitDone out rest).2)
    | (tr, .panicked) => (tr, .crashed)

/-- The function `fetchHTML(chrome, url)`. -/
def fetchHTML (chrome : RemoteDebugger) (url : String) : FetchRun :=
  let tab := (chrome.newTab url).1
  let opened : List Event :=
    [.lock, .newTab url] ++
      (if (chrome.newTab url).2.isSome then [.log "chrome.NewTab"] else [])
  let enabled : List Event :=
    opened ++ [.pageEvents true] ++
      (if chrome.pageEvents.isSome then [.log "chrome.PageEvents"] else [])
  match tab with
  | none => ⟨enabled ++ [.closeTab none, .unlock], .panicked⟩
  | some _ =>
    let registered : List Event :=
      enabled ++ [.log "New Tab", .callbackEvent "Page.loadEventFired"]
    match awaitDone [] chrome.loadEvents with
    | (tr, .done out) => ⟨registered ++ tr ++ [.closeTab tab, .unlock], .returned out none⟩
    | (tr, .blocked) => ⟨registered ++ tr, .blocked⟩
    | (tr, .crashed) => ⟨registered ++ tr, .crashed⟩

/-! ## The HTTP handler -/

/-- What the handler wrote to the `http.ResponseWriter`. -/
structure Response where
  status : Nat
  body : Bytes
deriving DecidableEq, Repr

/-- One request: the response (`none` when the handler did not return), the
cache afterwards and the session actions performed. -/
structure HandlerRun where
  response : Option Response
  cache : Cache
  trace : List Event

/-- The body of the handler registered in `main`, for the request parameter `url`,
as a function of what the call `fetchHTML(chrome, url)` does.  `now` is the
instant of `c.Get`, `later` the instant of `c.Set`.  A `Write` without a
preceding `WriteHeader` sends status 200. -/
def serve (c : Cache) (url : String) (now : Nat) (fetch : FetchRun) (later : Nat) :
    HandlerRun :=
  match c.Get url now with
  | some out => ⟨some ⟨200, out⟩, c, []⟩
  | none =>
    match fetch.outcome with
    | .returned _ (some _) => ⟨some ⟨500, []⟩, c, fetch.trace⟩
    | .returned out none => ⟨some ⟨200, out⟩, c.Set url out none later, fetch.trace⟩
    | .blocked => ⟨none, c, fetch.trace⟩
    | .panicked => ⟨none, c, fetch.trace⟩
    | .crashed => ⟨none, c, fetch.trace⟩

/-- The handler registered in `main`. -/
def handler (c : Cache) (chrome : RemoteDebugger) (url : String) (now later : Nat) :
    HandlerRun :=
  serve c url now (fetchHTML chrome url) later

/-! ## Concurrent calls -/

/-- The actions of a render other than locking, unlocking, opening and closing the tab. -/
def Event.isInner : Event → Bool
  | .pageEvents _ => true
  | .callbackEvent _ => true
  | .sleep _ => true
  | .getDocument => true
  | .getOuterHTML _ => true
  | .log _ => true
  | _ => false

/-- The shape of the actions of one call: `Lock`, `NewTab`, inner actions, and
then either nothing more (the call has not returned) or the deferred `CloseTab`
followed by the deferred `Unlock`. -/
def Bracketed (T : List Event) : Prop :=
  ∃ u mid tail, T = .lock :: .newTab u :: (mid ++ tail) ∧ (∀ e ∈ mid, e.isInner = true) ∧
    (tail = [] ∨ ∃ t, tail = [.closeTab t, .unlock])

/-- An interleaving of concurrent calls: each entry is a call and the action it
performs, in the order in which the actions happen. -/
abbrev Schedule (ι : Type) := List (ι × Event)

/-- The actions of call `i` in the schedule, in order. -/
def Schedule.project {ι : Type} [DecidableEq ι] (s : Schedule ι) (i : ι) : List Event :=
  (s.filter (fun x => decide (x.1 = i))).map Prod.snd

/-- The rule of `sync.Mutex` for `fetchHTMLMu`.  The state is whether the mutex is
locked.  `Lock` proceeds only on an unlocked mutex and locks it (`none`: the
action cannot happen now); `Unlock` unlocks it; other actions leave it alone. -/
def mutexStep (locked : Bool) : Event → Option Bool
  | .lock => if locked then none else some true
  | .unlock => some false
  | _ => some locked

/-- The state of `fetchHTMLMu` after the schedule, started unlocked; `none` when
some `Lock` in the schedule could not have happened where it stands. -/
def mutexRun {ι : Type} (s : Schedule ι) : Option Bool :=
  s.foldl (fun st x => st.bind (fun locked => mutexStep locked x.2)) (some false)

/-- A call that has done the listed actions is between lock acquisition and lock
release. -/
def inCritical (q : List Event) : Prop := Event.lock ∈ q ∧ Event.unlock ∉ q

instance (q : List Event) : Decidable (inCritical q) :=
  inferInstanceAs (Decidable (Event.lock ∈ q ∧ Event.unlock ∉ q))

/-! ## Sample sessions -/

/-- A tab as `NewTab` returns it. -/
def sampleTab : Tab := ⟨"tab-1", "http://a.test/"⟩

/-- A document tree with a root object whose `nodeId` is 1. -/
def sampleDocument : Params :=
  [("root", .obj [("nodeId", .num 1), ("nodeName", .str "#document")])]

/-- A session that knows node 1 only. -/
def sampleOuterHTML (nodeId : Int) : Except GoError String :=
  if nodeId = 1 then .ok "<html></html>" else .error "Could not find node with given id"

/-- A session in which every call succeeds and the load event fires once. -/
def goodSession : RemoteDebugger :=
  ⟨fun _ => (some sampleTab, none), none, [⟨.ok sampleDocument, sampleOuterHTML⟩]⟩

/-- A session whose `GetDocument` fails in the only load event. -/
def documentFailure : RemoteDebugger :=
  ⟨fun _ => (some sampleTab, none), none, [⟨.error "connection reset", sampleOuterHTML⟩]⟩

/-- A session whose `GetOuterHTML` fails in the only load event. -/
def outerHTMLFailure : RemoteDebugger :=
  ⟨fun _ => (some sampleTab, none), none,
    [⟨.ok sampleDocument, fun _ => .error "connection reset"⟩]⟩

/-- A session whose `PageEvents(true)` fails; everything else succeeds. -/
def pageEventsFailure : RemoteDebugger :=
  ⟨fun _ => (some sampleTab, none), some "connection reset",
    [⟨.ok sampleDocument, sampleOuterHTML⟩]⟩

/-- A session whose `NewTab` fails with a nil tab. -/
def newTabFailure : RemoteDebugger :=
  ⟨fun _ => (none, some "connection refused"), none, [⟨.ok sampleDocument, sampleOuterHTML⟩]⟩

/-- A session whose `NewTab` fails but still hands back a tab. -/
def newTabFailureWithTab : RemoteDebugger :=
  ⟨fun _ => (some sampleTab, some "bad status"), none, [⟨.ok sampleDocument, sampleOuterHTML⟩]⟩

/-- A session whose document tree has no entry keyed `root`. -/
def rootlessSession : RemoteDebugger :=
  ⟨fun _ => (some sampleTab, none), none, [⟨.ok [("nodes", .arr [])], sampleOuterHTML⟩]⟩

/-- A session whose `root` entry is a string, not an object, and which answers
every outer-HTML request. -/
def nonObjectRootSession : RemoteDebugger :=
  ⟨fun _ => (some sampleTab, none), none,
    [⟨.ok [("root", .str "document")], fun _ => .ok "<body></body>"⟩]⟩

/-- A session whose first load event fails in `GetDocument` and whose next two
succeed with different HTML. -/
def retrySession : RemoteDebugger :=
  ⟨fun _ => (some sampleTab, none), none,
    [⟨.error "connection reset", sampleOuterHTML⟩,
     ⟨.ok sampleDocument, fun _ => .ok "<p>first</p>"⟩,
     ⟨.ok sampleDocument, fun _ => .ok "<p>second</p>"⟩]⟩

/-- A render whose call returned an error, as the handler could receive it. -/
def failedFetch : FetchRun :=
  ⟨[.lock, .newTab "http://a.test/", .log "chrome.NewTab", .unlock],
    .returned [] (some "connection refused")⟩

/-- Two concurrent calls on the sample session, for two URLs. -/
def sampleCalls (second : Bool) : RemoteDebugger × String :=
  (goodSession, if second then "http://b.test/" else "http://a.test/")

/-- An interleaving of the two sample calls: the first runs to its end, then the second
locks, opens its tab and enables the page events. -/
def sampleSchedule : Schedule Bool :=
  (fetchHTML goodSession "http://a.test/").trace.map (fun e => (false, e)) ++
    [(true, .lock), (true, .newTab "http://b.test/"), (true, .pageEvents true)]

/-! ## Cache lemmas -/

theorem Cache.run_nil (c : Cache) : c.run [] = c := rfl

theorem Cache.run_cons (c : Cache) (op : CacheOp) (ops : List CacheOp) :
    c.run (op :: ops) = (op.apply c).run ops := rfl

theorem CacheOp.apply_defaultExpiration (c : Cache) (op : CacheOp) :
    (op.apply c).defaultExpiration = c.defaultExpiration := by
  cases op <;> rfl

theorem Cache.run_defaultExpiration (ops : List CacheOp) (c : Cache) :
    (c.run ops).defaultExpiration = c.defaultExpiration := by
  induction ops generalizing c with
  | nil => rfl
  | cons op ops ih => rw [Cache.run_cons, ih, CacheOp.apply_defaultExpiration]

/-- Reading right after a store under the same key. -/
theorem Cache.Get_Set_same (c : Cache) (u : String) (b : Bytes) (d : Option Nat) (t0 t : Nat) :
    (c.Set u b d t0).Get u t =
      if t < t0 + (match d with | some ttl => ttl | none => c.defaultExpiration)
      then some b else none := by
  simp [Cache.Get, Cache.Set]

/-- A store under one key does not change what is read under another. -/
theorem Cache.Get_Set_other (c : Cache) (u u' : String) (b : Bytes) (d : Option Nat)
    (t0 t : Nat) (h : u ≠ u') : (c.Set u b d t0).Get u' t = c.Get u' t := by
  have h' : ¬ u' = u := fun e => h e.symm
  simp [Cache.Get, Cache.Set, h']

/-- A sweep that is not later than the read does not change what is read. -/
theorem Cache.Get_DeleteExpired (c : Cache) (u : String) (s t : Nat) (h : s ≤ t) :
    (c.DeleteExpired s).Get u t = c.Get u t := by
  unfold Cache.Get Cache.DeleteExpired
  cases hi : c.items u with
  | none => simp [hi]
  | some it =>
    by_cases h1 : t < it.expiration
    · have h2 : s < it.expiration := by omega
      simp [hi, h1, h2]
    · by_cases h2 : s < it.expiration <;> simp [hi, h1, h2]

/-- A sweep never makes an absent entry readable. -/
theorem Cache.Get_DeleteExpired_none (c : Cache) (u : String) (s t : Nat)
    (h : c.Get u t = none) : (c.DeleteExpired s).Get u t = none := by
  unfold Cache.Get Cache.DeleteExpired at *
  cases hi : c.items u with
  | none => simp [hi]
  | some it =>
    rw [hi] at h
    by_cases h1 : t < it.expiration
    · simp [h1] at h
    · by_cases h2 : s < it.expiration <;> simp [hi, h1, h2]

theorem CacheOp.storesKey_set (u k : String) (v : Bytes) (n : Nat)
    (h : (CacheOp.set k v n).storesKey u = false) : k ≠ u := by
  intro e
  simp [CacheOp.storesKey, e] at h

/-- Operations on other keys and sweeps up to the read leave the read unchanged. -/
theorem Cache.Get_run_frame (u : String) (t : Nat) (ops : List CacheOp) (c : Cache)
    (h : ∀ op ∈ ops, op.storesKey u = false ∧ op.time ≤ t) :
    (c.run ops).Get u t = c.Get u t := by
  induction ops generalizing c with
  | nil => rfl
  | cons op ops ih =>
    rw [Cache.run_cons, ih _ (fun o ho => h o (List.mem_cons_of_mem _ ho))]
    have hop := h op (List.mem_cons_self _ _)
    cases op with
    | set k v n => exact Cache.Get_Set_other c k u v none n t (CacheOp.storesKey_set u k v n hop.1)
    | sweep s => exact Cache.Get_DeleteExpired c u s t hop.2

/-- Operations on other keys and sweeps at any time keep an unreadable key unreadable. -/
theorem Cache.Get_run_none (u : String) (t : Nat) (ops : List CacheOp) (c : Cache)
    (h : ∀ op ∈ ops, op.storesKey u = false) (hc : c.Get u t = none) :
    (c.run ops).Get u t = none := by
  induction ops generalizing c with
  | nil => exact hc
  | cons op ops ih =>
    rw [Cache.run_cons]
    apply ih _ (fun o ho => h o (List.mem_cons_of_mem _ ho))
    have hop := h op (List.mem_cons_self _ _)
    cases op with
    | set k v n =>
      exact (Cache.Get_Set_other c k u v none n t (CacheOp.storesKey_set u k v n hop)).trans hc
    | sweep s => exact Cache.Get_DeleteExpired_none c u s t hc

/-- The cache of `main` keeps its five-minute default whatever happens to it. -/
theorem mainCache_run_defaultExpiration (ops : List CacheOp) :
    (mainCache.run ops).defaultExpiration = fiveMinutes := by
  rw [Cache.run_defaultExpiration]; rfl

/-! ## Cache claims -/

/-- C1 (cache round-trip).  On the cache of `main`, after any history `pre`, the
gateway stores `b` under `u` at `t0` with `cache.DefaultExpiration`; afterwards
only stores under other keys and sweeps happen, none later than `t`.  Then for
`t0 ≤ t < t0 + 5 minutes`, `Get u` at `t` returns exactly `b`. -/
theorem cache_round_trip (pre post : List CacheOp) (u : String) (b : Bytes) (t0 t : Nat)
    (_h0 : t0 ≤ t) (h1 : t < t0 + fiveMinutes)
    (hpost : ∀ op ∈ post, op.storesKey u = false ∧ op.time ≤ t) :
    (((mainCache.run pre).Set u b none t0).run post).Get u t = some b := by
  rw [Cache.Get_run_frame u t post _ hpost, Cache.Get_Set_same]
  simp only [mainCache_run_defaultExpiration]
  rw [if_pos h1]

/-- C2 (cache expiry).  On the cache of `main`, after any history `pre`, `b` is
stored under `u` at `t0` and `u` is not stored again; whatever stores under other
keys and sweeps (at any instants) follow, `Get u` at any `t ≥ t0 + 5 minutes`
finds nothing. -/
theorem cache_expiry (pre post : List CacheOp) (u : String) (b : Bytes) (t0 t : Nat)
    (h : t0 + fiveMinutes ≤ t) (hpost : ∀ op ∈ post, op.storesKey u = false) :
    (((mainCache.run pre).Set u b none t0).run post).Get u t = none := by
  apply Cache.Get_run_none u t post _ hpost
  rw [Cache.Get_Set_same]
  simp only [mainCache_run_defaultExpiration]
  rw [if_neg (by omega)]

/-- Witness of C1: a store at instant 10, a sweep and a store under another key,
then a read at instant 40. -/
theorem cache_round_trip_witness :
    (((mainCache.run [.set "http://b.test/" [1] 5]).Set "http://a.test/" [60, 62] none 10).run
        [.sweep 20, .set "http://b.test/" [2] 30]).Get "http://a.test/" 40 = some [60, 62] :=
  cache_round_trip [.set "http://b.test/" [1] 5] [.sweep 20, .set "http://b.test/" [2] 30]
    "http://a.test/" [60, 62] 10 40 (by decide) (by decide) (by decide)

/-- Witness of C2: a store at instant 10, a read exactly five minutes later, with
an earlier sweep and a store under another key in between. -/
theorem cache_expiry_witness :
    (((mainCache.run []).Set "http://a.test/" [60, 62] none 10).run
        [.sweep 20, .set "http://b.test/" [2] 30]).Get "http://a.test/" (10 + fiveMinutes)
      = none :=
  cache_expiry [] [.sweep 20, .set "http://b.test/" [2] 30] "http://a.test/" [60, 62] 10
    (10 + fiveMinutes) (Nat.le_refl _) (by decide)

/-! ## Handler lemmas -/

/-- On a cache hit the handler answers from the cache and does nothing else. -/
theorem serve_hit (c : Cache) (url : String) (now later : Nat) (fetch : FetchRun)
    (out : Bytes) (h : c.Get url now = some out) :
    serve c url now fetch later = ⟨some ⟨200, out⟩, c, []⟩ := by
  simp [serve, h]

/-- On a miss followed by a successful render the handler writes the bytes and
stores them. -/
theorem serve_miss_ok (c : Cache) (url : String) (now later : Nat) (fetch : FetchRun)
    (out : Bytes) (h : c.Get url now = none) (hf : fetch.outcome = .returned out none) :
    serve c url now fetch later = ⟨some ⟨200, out⟩, c.Set url out none later, fetch.trace⟩ := by
  simp [serve, h, hf]

/-- The cache after a request is the cache before, or the cache before with one
store under the requested key. -/
theorem serve_cache (c : Cache) (url : String) (now later : Nat) (fetch : FetchRun) :
    (serve c url now fetch later).cache = c ∨
      ∃ out, c.Get url now = none ∧ fetch.outcome = .returned out none ∧
        (serve c url now fetch later).cache = c.Set url out none later := by
  unfold serve
  cases hg : c.Get url now with
  | some out => exact Or.inl rfl
  | none =>
    cases hf : fetch.outcome with
    | returned out err =>
      cases err with
      | none => exact Or.inr ⟨out, rfl, rfl, rfl⟩
      | some e => exact Or.inl rfl
    | blocked => exact Or.inl rfl
    | panicked => exact Or.inl rfl
    | crashed => exact Or.inl rfl

/-! ## Key exactness -/

/-- C3 (key exactness).  For URL strings `u ≠ u'`: a store under `u` does not
change `Get u'`; a whole request for `u` (the handler reads and stores under the
request parameter as given) does not change `Get u'`; and the answer to a request
for `u'` is the same with and without the entry of `u`. -/
theorem key_exactness (c : Cache) (chrome : RemoteDebugger) (u u' : String) (h : u ≠ u')
    (v : Bytes) (d : Option Nat) (t0 t now later : Nat) (fetch : FetchRun) :
    (c.Set u v d t0).Get u' t = c.Get u' t ∧
    (handler c chrome u now later).cache.Get u' t = c.Get u' t ∧
    (serve (c.Set u v d t0) u' t fetch later).response = (serve c u' t fetch later).response := by
  refine ⟨Cache.Get_Set_other c u u' v d t0 t h, ?_, ?_⟩
  · rcases serve_cache c u now later (fetchHTML chrome u) with hc | ⟨out, -, -, hc⟩
    · unfold handler; rw [hc]
    · unfold handler; rw [hc]; exact Cache.Get_Set_other c u u' out none later t h
  · unfold serve
    rw [Cache.Get_Set_other c u u' v d t0 t h]
    cases c.Get u' t with
    | some out => rfl
    | none =>
      cases fetch.outcome with
      | returned out err => cases err <;> rfl
      | blocked => rfl
      | panicked => rfl
      | crashed => rfl

/-- Witness of C3: two URLs that differ only by a trailing slash. -/
theorem key_exactness_witness :
    (mainCache.Set "http://a.test" [1] none 0).Get "http://a.test/" 5 =
        mainCache.Get "http://a.test/" 5 ∧
    (handler mainCache goodSession "http://a.test" 0 1).cache.Get "http://a.test/" 5 =
        mainCache.Get "http://a.test/" 5 ∧
    (serve (mainCache.Set "http://a.test" [1] none 0) "http://a.test/" 5 failedFetch 6).response =
        (serve mainCache "http://a.test/" 5 failedFetch 6).response :=
  key_exactness mainCache goodSession "http://a.test" "http://a.test/" (by decide)
    [1] none 0 5 0 1 failedFetch

/-! ## The callback and the wait -/

/-- Entries not keyed `root` leave `rootNodeId` as it is. -/
theorem foldl_rootStep_no_root (o : Params) (r : Option Int)
    (h : ∀ e ∈ o, e.1 ≠ "root") : o.foldl rootStep r = r := by
  induction o generalizing r with
  | nil => rfl
  | cons e o ih =>
    rw [List.foldl_cons, ih _ (fun x hx => h x (List.mem_cons_of_mem _ hx))]
    cases r with
    | none => rfl
    | some r => simp [rootStep, h e (List.mem_cons_self _ _)]

/-- A tree without an entry keyed `root` resolves to the initial `-1`. -/
theorem resolveRootNodeId_no_root (o : Params) (h : ∀ e ∈ o, e.1 ≠ "root") :
    resolveRootNodeId o = some (-1) :=
  foldl_rootStep_no_root o _ h

/-- A tree whose only entry keyed `root` is an object with a numeric `nodeId`
resolves to that identifier, converted with `int`. -/
theorem resolveRootNodeId_root (before after x : Params) (f : ℚ)
    (hb : ∀ e ∈ before, e.1 ≠ "root") (ha : ∀ e ∈ after, e.1 ≠ "root")
    (hid : x.lookup "nodeId" = some (.num f)) :
    resolveRootNodeId (before ++ ("root", .obj x) :: after) = some (goInt f) := by
  unfold resolveRootNodeId
  rw [List.foldl_append, foldl_rootStep_no_root before _ hb, List.foldl_cons]
  have hstep : rootStep (some (-1)) ("root", JVal.obj x) = some (goInt f) := by
    simp [rootStep, hid]
  rw [hstep, foldl_rootStep_no_root after _ ha]

/-- The callback signals exactly after a successful `GetDocument` and a successful
`GetOuterHTML` for the resolved node, and it signals with that HTML. -/
theorem loadEventFired_signalled_iff (ev : LoadEvent) (html : String) :
    (loadEventFired ev).2 = .signalled html ↔
      ∃ doc n, ev.getDocument = .ok doc ∧ resolveRootNodeId doc = some n ∧
        ev.getOuterHTML n = .ok html := by
  unfold loadEventFired
  cases hd : ev.getDocument with
  | error e => simp
  | ok doc =>
    cases hr : resolveRootNodeId doc with
    | none => simp [hr]
    | some n =>
      cases hh : ev.getOuterHTML n with
      | error e => simp [hr, hh]
      | ok html' => simp [hr, hh]

/-- How the wait ends, by the end of the first callback. -/
theorem awaitDone_cons_end (out : Bytes) (ev : LoadEvent) (rest : List LoadEvent) :
    (awaitDone out (ev :: rest)).2 =
      match (loadEventFired ev).2 with
      | .signalled html => .done (out ++ bytesOf html)
      | .returnedEarly => (awaitDone out rest).2
      | .panicked => .crashed := by
  rw [awaitDone]
  rcases hl : loadEventFired ev with ⟨tr, e⟩
  cases e <;> rfl

/-- The wait ends with `done` exactly when some load event signals after callbacks
that all returned early; the buffer then holds what it held before followed by
the HTML of that event. -/
theorem awaitDone_done_iff (evs : List LoadEvent) (out o : Bytes) :
    (awaitDone out evs).2 = .done o ↔
      ∃ before ev after html, evs = before ++ ev :: after ∧
        (∀ e ∈ before, (loadEventFired e).2 = .returnedEarly) ∧
        (loadEventFired ev).2 = .signalled html ∧ o = out ++ bytesOf html := by
  induction evs with
  | nil => simp [awaitDone]
  | cons ev rest ih =>
    rw [awaitDone_cons_end]
    cases he : (loadEventFired ev).2 with
    | signalled html =>
      constructor
      · intro h
        simp at h
        exact ⟨[], ev, rest, html, rfl, by simp, he, h.symm⟩
      · rintro ⟨before, ev', after, html', hsplit, hbefore, hsig, ho⟩
        cases before with
        | nil =>
          simp at hsplit
          obtain ⟨rfl, -⟩ := hsplit
          rw [he] at hsig
          cases hsig
          simp [ho]
        | cons b bs =>
          simp at hsplit
          obtain ⟨rfl, -⟩ := hsplit
          have := hbefore ev (List.mem_cons_self _ _)
          rw [he] at this
          cases this
    | returnedEarly =>
      simp only []
      rw [ih]
      constructor
      · rintro ⟨before, ev', after, html', hsplit, hbefore, hsig, ho⟩
        refine ⟨ev :: before, ev', after, html', by simp [hsplit], ?_, hsig, ho⟩
        intro e hmem
        rcases List.mem_cons.1 hmem with rfl | hmem
        · exact he
        · exact hbefore e hmem
      · rintro ⟨before, ev', after, html', hsplit, hbefore, hsig, ho⟩
        cases before with
        | nil =>
          simp at hsplit
          obtain ⟨rfl, -⟩ := hsplit
          rw [he] at hsig
          cases hsig
        | cons b bs =>
          simp at hsplit
          obtain ⟨rfl, rfl⟩ := hsplit
          exact ⟨bs, ev', after, html', rfl,
            fun e hmem => hbefore e (List.mem_cons_of_mem _ hmem), hsig, ho⟩
    | panicked =>
      constructor
      · intro h
        simp at h
      · rintro ⟨before, ev', after, html', hsplit, hbefore, hsig, ho⟩
        cases before with
        | nil =>
          simp at hsplit
          obtain ⟨rfl, -⟩ := hsplit
          rw [he] at hsig
          cases hsig
        | cons b bs =>
          simp at hsplit
          obtain ⟨rfl, -⟩ := hsplit
          have := hbefore ev (List.mem_cons_self _ _)
          rw [he] at this
          cases this

/-- Every return of `fetchHTML` is the single `return out.Bytes(), nil` after the wait. -/
theorem fetchHTML_returned_iff (chrome : RemoteDebugger) (url : String) (out : Bytes)
    (err : Option GoError) :
    (fetchHTML chrome url).outcome = .returned out err ↔
      err = none ∧ (chrome.newTab url).1 ≠ none ∧
        (awaitDone [] chrome.loadEvents).2 = .done out := by
  unfold fetchHTML
  cases ht : (chrome.newTab url).1 with
  | none => simp
  | some tab =>
    rcases hw : awaitDone [] chrome.loadEvents with ⟨tr, w⟩
    cases w with
    | done o =>
      simp
      constructor
      · rintro ⟨h1, h2⟩
        exact ⟨h2.symm, h1⟩
      · rintro ⟨h1, h2⟩
        exact ⟨h2, h1.symm⟩
    | blocked => simp
    | crashed => simp

/-- The render of a session in which every call succeeds and the load event fires
once: its actions, in order, and its result. -/
theorem fetchHTML_success (chrome : RemoteDebugger) (url : String) (tab : Tab)
    (ev : LoadEvent) (doc : Params) (n : Int) (html : String)
    (htab : chrome.newTab url = (some tab, none)) (hpe : chrome.pageEvents = none)
    (hload : chrome.loadEvents = [ev]) (hdoc : ev.getDocument = .ok doc)
    (hroot : resolveRootNodeId doc = some n) (hhtml : ev.getOuterHTML n = .ok html) :
    fetchHTML chrome url =
      ⟨[.lock, .newTab url, .pageEvents true, .log "New Tab",
        .callbackEvent "Page.loadEventFired", .sleep 100000000, .getDocument,
        .getOuterHTML n, .closeTab (some tab), .unlock],
       .returned (bytesOf html) none⟩ := by
  simp [fetchHTML, awaitDone, loadEventFired, htab, hpe, hload, hdoc, hroot, hhtml]

/-! ## End-to-end success -/

/-- C4 (end-to-end success).  Let every session call succeed and the load event
fire once, the document tree having exactly one entry keyed `root`, an object
with numeric `nodeId` `f`, and let the cache hold no unexpired entry for `A`.
Then the request for `A` performs the listed actions, with exactly one tab-open
and one tab-close and the outer-HTML fetch for node `int(f)`; it answers 200
with the bytes of that HTML and stores them under `A`.  A repeat request for `A`
within five minutes of the store, on any session, answers the same bytes and
performs no session action at all. -/
theorem end_to_end_success (c : Cache) (chrome chrome2 : RemoteDebugger) (A : String)
    (tab : Tab) (ev : LoadEvent) (before after x : Params) (f : ℚ) (html : String)
    (now later again later2 : Nat)
    (hdef : c.defaultExpiration = fiveMinutes)
    (hcold : c.Get A now = none)
    (htab : chrome.newTab A = (some tab, none)) (hpe : chrome.pageEvents = none)
    (hload : chrome.loadEvents = [ev])
    (hdoc : ev.getDocument = .ok (before ++ ("root", .obj x) :: after))
    (hb : ∀ e ∈ before, e.1 ≠ "root") (ha : ∀ e ∈ after, e.1 ≠ "root")
    (hid : x.lookup "nodeId" = some (.num f))
    (hhtml : ev.getOuterHTML (goInt f) = .ok html)
    (_h1 : later ≤ again) (h2 : again < later + fiveMinutes) :
    (handler c chrome A now later).trace =
      [.lock, .newTab A, .pageEvents true, .log "New Tab",
        .callbackEvent "Page.loadEventFired", .sleep 100000000, .getDocument,
        .getOuterHTML (goInt f), .closeTab (some tab), .unlock] ∧
    (handler c chrome A now later).trace.countP Event.isTabOpen = 1 ∧
    (handler c chrome A now later).trace.countP Event.isTabClose = 1 ∧
    (handler c chrome A now later).response = some ⟨200, bytesOf html⟩ ∧
    (handler c chrome A now later).cache = c.Set A (bytesOf html) none later ∧
    (handler (handler c chrome A now later).cache chrome2 A again later2).response =
      some ⟨200, bytesOf html⟩ ∧
    (handler (handler c chrome A now later).cache chrome2 A again later2).trace = [] := by
  have hroot := resolveRootNodeId_root before after x f hb ha hid
  have hfetch := fetchHTML_success chrome A tab ev _ (goInt f) html htab hpe hload hdoc
    hroot hhtml
  have hrun : handler c chrome A now later =
      ⟨some ⟨200, bytesOf html⟩, c.Set A (bytesOf html) none later,
        (fetchHTML chrome A).trace⟩ := by
    unfold handler
    exact serve_miss_ok c A now later _ _ hcold (by rw [hfetch])
  have hget : (c.Set A (bytesOf html) none later).Get A again = some (bytesOf html) := by
    rw [Cache.Get_Set_same]
    simp only [hdef]
    rw [if_pos h2]
  have hrepeat : handler (c.Set A (bytesOf html) none later) chrome2 A again later2 =
      ⟨some ⟨200, bytesOf html⟩, c.Set A (bytesOf html) none later, []⟩ := by
    unfold handler
    exact serve_hit _ A again later2 _ _ hget
  rw [hrun, hrepeat, hfetch]
  refine ⟨rfl, ?_, ?_, rfl, rfl, rfl, rfl⟩
  · simp [List.countP_cons, Event.isTabOpen]
  · simp [List.countP_cons, Event.isTabClose]

/-- Witness of C4: the cold cache of `main`, the sample session, a repeat request
one minute after the store. -/
theorem end_to_end_success_witness :
    (handler mainCache goodSession "http://a.test/" 0 1).trace.countP Event.isTabOpen = 1 ∧
    (handler mainCache goodSession "http://a.test/" 0 1).trace.countP Event.isTabClose = 1 ∧
    (handler mainCache goodSession "http://a.test/" 0 1).response =
      some ⟨200, bytesOf "<html></html>"⟩ ∧
    (handler (handler mainCache goodSession "http://a.test/" 0 1).cache documentFailure
      "http://a.test/" (1 + minute) (2 + minute)).response =
      some ⟨200, bytesOf "<html></html>"⟩ ∧
    (handler (handler mainCache goodSession "http://a.test/" 0 1).cache documentFailure
      "http://a.test/" (1 + minute) (2 + minute)).trace = [] :=
  have h := end_to_end_success mainCache goodSession documentFailure "http://a.test/"
    sampleTab ⟨.ok sampleDocument, sampleOuterHTML⟩ []
    [] [("nodeId", .num 1), ("nodeName", .str "#document")] 1 "<html></html>"
    0 1 (1 + minute) (2 + minute) rfl rfl rfl rfl rfl rfl
    (by simp) (by simp) rfl rfl (by decide) (by decide)
  ⟨h.2.1, h.2.2.1, h.2.2.2.1, h.2.2.2.2.2.1, h.2.2.2.2.2.2⟩

/-! ## Failure paths of the handler -/

/-- C8 (gateway failure response and cache atomicity).  When the cache lookup
misses and the call of `fetchHTML` returned a non-nil error, the handler sets
status 500, writes no body byte and leaves the cache as it was.  Whatever the
render does, the cache after the request differs from the cache before only by
one store under the requested URL, made after a miss and after the render
returned bytes with a nil error. -/
theorem gateway_failure_response (c : Cache) (url : String) (now later : Nat)
    (fetch other : FetchRun) (out : Bytes) (e : GoError)
    (hmiss : c.Get url now = none) (hfail : fetch.outcome = .returned out (some e)) :
    (serve c url now fetch later).response = some ⟨500, []⟩ ∧
    (serve c url now fetch later).cache = c ∧
    ((serve c url now other later).cache = c ∨
      ∃ bytes, c.Get url now = none ∧ other.outcome = .returned bytes none ∧
        (serve c url now other later).cache = c.Set url bytes none later) := by
  refine ⟨?_, ?_, serve_cache c url now later other⟩
  · simp [serve, hmiss, hfail]
  · simp [serve, hmiss, hfail]

/-- Witness of C8: a miss on the cache of `main` and a render that returned an
error; the other render is the successful sample session. -/
theorem gateway_failure_response_witness :
    (serve mainCache "http://a.test/" 0 failedFetch 1).response = some ⟨500, []⟩ ∧
    (serve mainCache "http://a.test/" 0 failedFetch 1).cache = mainCache ∧
    ((serve mainCache "http://a.test/" 0 (fetchHTML goodSession "http://a.test/") 1).cache =
        mainCache ∨
      ∃ bytes, mainCache.Get "http://a.test/" 0 = none ∧
        (fetchHTML goodSession "http://a.test/").outcome = .returned bytes none ∧
        (serve mainCache "http://a.test/" 0 (fetchHTML goodSession "http://a.test/") 1).cache =
          mainCache.Set "http://a.test/" bytes none 1) :=
  gateway_failure_response mainCache "http://a.test/" 0 1 failedFetch
    (fetchHTML goodSession "http://a.test/") [] "connection refused" rfl rfl

/-! ## What fetchHTML returns -/

/-- C10 (`fetchHTML` never reports an error).  For every session and URL, the call
returns `(out, err)` exactly when `err` is nil, `NewTab` handed back a tab, and
the load events split into: events whose callbacks all logged a failure and
returned without signalling, then the event whose callback signalled, its
`GetDocument` and its `GetOuterHTML` for the resolved node having succeeded;
`out` is the bytes of the HTML of that very event.  A request served through
this render never gets status 500, and the call always ends in one of: returned
with a nil error, blocked on the wait, or panicked. -/
theorem fetchHTML_never_reports_error (chrome : RemoteDebugger) (url : String) :
    (∀ out err, (fetchHTML chrome url).outcome = .returned out err ↔
      err = none ∧ (chrome.newTab url).1 ≠ none ∧
      ∃ before ev after doc n html, chrome.loadEvents = before ++ ev :: after ∧
        (∀ e ∈ before, (loadEventFired e).2 = .returnedEarly) ∧
        ev.getDocument = .ok doc ∧ resolveRootNodeId doc = some n ∧
        ev.getOuterHTML n = .ok html ∧ out = bytesOf html) ∧
    (∀ c now later r, (handler c chrome url now later).response = some r → r.status = 200) ∧
    ((∃ out, (fetchHTML chrome url).outcome = .returned out none) ∨
      (fetchHTML chrome url).outcome = .blocked ∨
      (fetchHTML chrome url).outcome = .panicked ∨
      (fetchHTML chrome url).outcome = .crashed) := by
  have key : ∀ out err, (fetchHTML chrome url).outcome = .returned out err → err = none :=
    fun out err h => ((fetchHTML_returned_iff chrome url out err).1 h).1
  refine ⟨?_, ?_, ?_⟩
  · intro out err
    rw [fetchHTML_returned_iff, awaitDone_done_iff]
    constructor
    · rintro ⟨he, ht, before, ev, after, html, hsplit, hbefore, hsig, ho⟩
      obtain ⟨doc, n, hd, hr, hh⟩ := (loadEventFired_signalled_iff ev html).1 hsig
      exact ⟨he, ht, before, ev, after, doc, n, html, hsplit, hbefore, hd, hr, hh,
        by simpa using ho⟩
    · rintro ⟨he, ht, before, ev, after, doc, n, html, hsplit, hbefore, hd, hr, hh, ho⟩
      exact ⟨he, ht, before, ev, after, html, hsplit, hbefore,
        (loadEventFired_signalled_iff ev html).2 ⟨doc, n, hd, hr, hh⟩, by simpa using ho⟩
  · intro c now later r hr
    unfold handler serve at hr
    cases hg : c.Get url now with
    | some out =>
      simp [hg] at hr
      rw [← hr]
    | none =>
      cases hf : (fetchHTML chrome url).outcome with
      | returned out err =>
        have := key out err hf
        subst this
        simp [hg, hf] at hr
        rw [← hr]
      | blocked => simp [hg, hf] at hr
      | panicked => simp [hg, hf] at hr
      | crashed => simp [hg, hf] at hr
  · cases hf : (fetchHTML chrome url).outcome with
    | returned out err =>
      have := key out err hf
      subst this
      exact Or.inl ⟨out, rfl⟩
    | blocked => exact Or.inr (Or.inl rfl)
    | panicked => exact Or.inr (Or.inr (Or.inl rfl))
    | crashed => exact Or.inr (Or.inr (Or.inr rfl))

/-- Witness of C10: on a session whose first load event fails and whose next two
succeed with different HTML, the call returns, with a nil error and the HTML of
the first event that signalled. -/
theorem fetchHTML_never_reports_error_witness :
    (fetchHTML retrySession "http://a.test/").outcome =
        .returned (bytesOf "<p>first</p>") none ∧
    ((none : Option GoError) = none ∧ (retrySession.newTab "http://a.test/").1 ≠ none ∧
      ∃ before ev after doc n html, retrySession.loadEvents = before ++ ev :: after ∧
        (∀ e ∈ before, (loadEventFired e).2 = .returnedEarly) ∧
        ev.getDocument = .ok doc ∧ resolveRootNodeId doc = some n ∧
        ev.getOuterHTML n = .ok html ∧ bytesOf "<p>first</p>" = bytesOf html) :=
  ⟨rfl, ((fetchHTML_never_reports_error retrySession "http://a.test/").1
    (bytesOf "<p>first</p>") none).1 rfl⟩

/-! ## Failures inside the render -/

/-- C5, evaluated.  When `GetDocument` (first session) or `GetOuterHTML` (second
session) fails in the only load event, the callback logs and returns without
signalling: the call stays blocked on the wait, the tab is not closed, the lock
is not released, and the handler never answers. -/
theorem extraction_failure_blocks :
    fetchHTML documentFailure "http://a.test/" =
      ⟨[.lock, .newTab "http://a.test/", .pageEvents true, .log "New Tab",
        .callbackEvent "Page.loadEventFired", .sleep 100000000, .getDocument,
        .log "chrome.GetDocument"], .blocked⟩ ∧
    fetchHTML outerHTMLFailure "http://a.test/" =
      ⟨[.lock, .newTab "http://a.test/", .pageEvents true, .log "New Tab",
        .callbackEvent "Page.loadEventFired", .sleep 100000000, .getDocument,
        .getOuterHTML 1, .log "chrome.GetOuterHTML"], .blocked⟩ ∧
    (fetchHTML documentFailure "http://a.test/").trace.countP Event.isTabClose = 0 ∧
    Event.unlock ∉ (fetchHTML documentFailure "http://a.test/").trace ∧
    (handler mainCache documentFailure "http://a.test/" 0 1).response = none := by
  refine ⟨rfl, rfl, ?_, ?_, rfl⟩ <;> decide

/-- C6, evaluated.  When `PageEvents(true)` fails, or `NewTab` fails and still
hands back a tab, the call logs, carries on with the protocol and returns the
HTML with a nil error, so the handler answers 200; when `NewTab` fails with a
nil tab, the call panics on `tab.URL` and returns nothing. -/
theorem open_and_enable_failures_not_reported :
    fetchHTML pageEventsFailure "http://a.test/" =
      ⟨[.lock, .newTab "http://a.test/", .pageEvents true, .log "chrome.PageEvents",
        .log "New Tab", .callbackEvent "Page.loadEventFired", .sleep 100000000,
        .getDocument, .getOuterHTML 1, .closeTab (some sampleTab), .unlock],
       .returned (bytesOf "<html></html>") none⟩ ∧
    (handler mainCache pageEventsFailure "http://a.test/" 0 1).response =
      some ⟨200, bytesOf "<html></html>"⟩ ∧
    (fetchHTML newTabFailureWithTab "http://a.test/").outcome =
      .returned (bytesOf "<html></html>") none ∧
    fetchHTML newTabFailure "http://a.test/" =
      ⟨[.lock, .newTab "http://a.test/", .log "chrome.NewTab", .pageEvents true,
        .closeTab none, .unlock], .panicked⟩ :=
  ⟨rfl, rfl, rfl, rfl⟩

/-- C7, evaluated.  For a document tree without an entry keyed `root`,
`rootNodeId` stays `-1` and the outer HTML is requested for node `-1`; the
session rejects it, the callback returns without signalling and the call stays
blocked.  For a `root` entry that is not an object the same request for node
`-1` is made, and when the session answers it, the call returns that answer as
a success. -/
theorem missing_root_fetches_unresolved_node :
    fetchHTML rootlessSession "http://a.test/" =
      ⟨[.lock, .newTab "http://a.test/", .pageEvents true, .log "New Tab",
        .callbackEvent "Page.loadEventFired", .sleep 100000000, .getDocument,
        .getOuterHTML (-1), .log "chrome.GetOuterHTML"], .blocked⟩ ∧
    fetchHTML nonObjectRootSession "http://a.test/" =
      ⟨[.lock, .newTab "http://a.test/", .pageEvents true, .log "New Tab",
        .callbackEvent "Page.loadEventFired", .sleep 100000000, .getDocument,
        .getOuterHTML (-1), .closeTab (some sampleTab), .unlock],
       .returned (bytesOf "<body></body>") none⟩ :=
  ⟨rfl, rfl⟩

/-! ## Shape of a call -/

theorem loadEventFired_isInner (ev : LoadEvent) :
    ∀ e ∈ (loadEventFired ev).1, e.isInner = true := by
  unfold loadEventFired
  cases hd : ev.getDocument with
  | error e => simp [Event.isInner]
  | ok doc =>
    cases hr : resolveRootNodeId doc with
    | none => simp [hr, Event.isInner]
    | some n =>
      cases hh : ev.getOuterHTML n with
      | error e => simp [hr, hh, Event.isInner]
      | ok html => simp [hr, hh, Event.isInner]

theorem awaitDone_isInner (out : Bytes) (evs : List LoadEvent) :
    ∀ e ∈ (awaitDone out evs).1, e.isInner = true := by
  induction evs with
  | nil => simp [awaitDone]
  | cons ev rest ih =>
    have h1 := loadEventFired_isInner ev
    rw [awaitDone]
    rcases hl : loadEventFired ev with ⟨tr, c⟩
    rw [hl] at h1
    cases c with
    | signalled html => exact h1
    | returnedEarly =>
      intro e he
      rcases List.mem_append.1 he with h | h
      · exact h1 e h
      · exact ih e h
    | panicked => exact h1

/-- The actions of every call of `fetchHTML` have the bracketed shape. -/
theorem fetchHTML_bracketed (chrome : RemoteDebugger) (url : String) :
    Bracketed (fetchHTML chrome url).trace := by
  have hpre : ∀ e ∈ (if (chrome.newTab url).2.isSome then [Event.log "chrome.NewTab"] else []) ++
      [Event.pageEvents true] ++
      (if chrome.pageEvents.isSome then [Event.log "chrome.PageEvents"] else []),
      e.isInner = true := by
    intro e he
    simp only [List.mem_append] at he
    rcases he with (he | he) | he
    · split at he <;> simp [Event.isInner] at he ⊢
      subst he; rfl
    · simp at he; subst he; rfl
    · split at he <;> simp [Event.isInner] at he ⊢
      subst he; rfl
  unfold fetchHTML
  cases ht : (chrome.newTab url).1 with
  | none =>
    exact ⟨url, _, [.closeTab none, .unlock], by simp, hpre, Or.inr ⟨none, rfl⟩⟩
  | some tab =>
    have hw := awaitDone_isInner [] chrome.loadEvents
    rcases hwd : awaitDone [] chrome.loadEvents with ⟨tr, w⟩
    rw [hwd] at hw
    have hmid : ∀ e ∈ ((if (chrome.newTab url).2.isSome then [Event.log "chrome.NewTab"]
        else []) ++ [Event.pageEvents true] ++
        (if chrome.pageEvents.isSome then [Event.log "chrome.PageEvents"] else [])) ++
        ([Event.log "New Tab", Event.callbackEvent "Page.loadEventFired"] ++ tr),
        e.isInner = true := by
      intro e he
      rcases List.mem_append.1 he with h | h
      · exact hpre e h
      · rcases List.mem_append.1 h with h | h
        · simp at h
          rcases h with rfl | rfl <;> rfl
        · exact hw e h
    cases w with
    | done o =>
      exact ⟨url, _, [.closeTab (some tab), .unlock], by simp, hmid, Or.inr ⟨some tab, rfl⟩⟩
    | blocked => exact ⟨url, _, [], by simp, hmid, Or.inl rfl⟩
    | crashed => exact ⟨url, _, [], by simp, hmid, Or.inl rfl⟩

theorem inner_ne (mid : List Event) (hmid : ∀ e ∈ mid, e.isInner = true) :
    Event.lock ∉ mid ∧ Event.unlock ∉ mid ∧ (∀ v, Event.newTab v ∉ mid) ∧
      ∀ t, Event.closeTab t ∉ mid := by
  refine ⟨fun h => ?_, fun h => ?_, fun v h => ?_, fun t h => ?_⟩ <;>
    simpa [Event.isInner] using hmid _ h

theorem rest_no_open (mid tail : List Event) (hmid : ∀ e ∈ mid, e.isInner = true)
    (htail : tail = [] ∨ ∃ t, tail = [Event.closeTab t, Event.unlock]) :
    Event.lock ∉ mid ++ tail ∧ ∀ v, Event.newTab v ∉ mid ++ tail := by
  obtain ⟨h1, -, h3, -⟩ := inner_ne mid hmid
  rcases htail with rfl | ⟨t, rfl⟩
  · simpa using ⟨h1, h3⟩
  · simp [h1, h3]

theorem rest_unlock_last (mid tail q : List Event) (e : Event)
    (hmid : ∀ e ∈ mid, e.isInner = true)
    (htail : tail = [] ∨ ∃ t, tail = [Event.closeTab t, Event.unlock])
    (h : q ++ [e] <+: mid ++ tail) : Event.unlock ∉ q := by
  obtain ⟨-, h2, -, -⟩ := inner_ne mid hmid
  have hq : q <+: q ++ [e] := List.prefix_append _ _
  rcases htail with rfl | ⟨t, rfl⟩
  · intro hu
    exact h2 (by simpa using (hq.trans h).subset hu)
  · have h' : q ++ [e] <+: (mid ++ [Event.closeTab t]) ++ [Event.unlock] := by simpa using h
    have hno : Event.unlock ∉ mid ++ [Event.closeTab t] := by simp [h2]
    rcases List.prefix_concat_iff.1 h' with heq | hp
    · have := List.append_inj' heq rfl
      rw [this.1]
      exact hno
    · intro hu
      exact hno ((hq.trans hp).subset hu)

theorem rest_closed (mid tail q : List Event) (hmid : ∀ e ∈ mid, e.isInner = true)
    (htail : tail = [] ∨ ∃ t, tail = [Event.closeTab t, Event.unlock])
    (h : q <+: mid ++ tail) (hu : Event.unlock ∈ q) : ∃ t, Event.closeTab t ∈ q := by
  obtain ⟨-, h2, -, -⟩ := inner_ne mid hmid
  rcases htail with rfl | ⟨t, rfl⟩
  · exact absurd (by simpa using h.subset hu) h2
  · have h' : q <+: (mid ++ [Event.closeTab t]) ++ [Event.unlock] := by simpa using h
    have hno : Event.unlock ∉ mid ++ [Event.closeTab t] := by simp [h2]
    rcases List.prefix_concat_iff.1 h' with heq | hp
    · exact ⟨t, by rw [heq]; simp⟩
    · exact absurd (hp.subset hu) hno

/-- In a bracketed call `Lock` is the first action only. -/
theorem Bracketed.lock_first {T q : List Event} (hT : Bracketed T)
    (h : q ++ [Event.lock] <+: T) : q = [] := by
  obtain ⟨u, mid, tail, rfl, hmid, htail⟩ := hT
  obtain ⟨hl, -⟩ := rest_no_open mid tail hmid htail
  match q, h with
  | [], _ => rfl
  | [a], h =>
    simp [List.cons_prefix_cons] at h
  | a :: b :: q', h =>
    simp only [List.cons_append, List.cons_prefix_cons] at h
    exact absurd (h.2.2.subset (by simp)) hl

/-- In a bracketed call nothing follows `Unlock`. -/
theorem Bracketed.unlock_last {T q : List Event} {e : Event} (hT : Bracketed T)
    (h : q ++ [e] <+: T) : Event.unlock ∉ q := by
  obtain ⟨u, mid, tail, rfl, hmid, htail⟩ := hT
  match q, h with
  | [], _ => simp
  | [a], h =>
    simp only [List.cons_append, List.nil_append, List.cons_prefix_cons] at h
    simp [h.1]
  | a :: b :: q', h =>
    simp only [List.cons_append, List.cons_prefix_cons] at h
    have := rest_unlock_last mid tail q' e hmid htail h.2.2
    simp [h.1, h.2.1, this]

/-- A bracketed call that has done anything has done `Lock`. -/
theorem Bracketed.lock_mem {T q : List Event} (hT : Bracketed T) (h : q <+: T)
    (hne : q ≠ []) : Event.lock ∈ q := by
  obtain ⟨u, mid, tail, rfl, hmid, htail⟩ := hT
  match q, h, hne with
  | a :: q', h, _ =>
    simp only [List.cons_prefix_cons] at h
    simp [← h.1]

/-- In a bracketed call `NewTab` is the second action only. -/
theorem Bracketed.newTab_second {T q : List Event} {v : String} (hT : Bracketed T)
    (h : q ++ [Event.newTab v] <+: T) : q = [Event.lock] := by
  obtain ⟨u, mid, tail, rfl, hmid, htail⟩ := hT
  obtain ⟨-, hn⟩ := rest_no_open mid tail hmid htail
  match q, h with
  | [], h => simp [List.cons_prefix_cons] at h
  | [a], h =>
    simp only [List.cons_append, List.nil_append, List.cons_prefix_cons] at h
    rw [h.1]
  | a :: b :: q', h =>
    simp only [List.cons_append, List.cons_prefix_cons] at h
    exact absurd (h.2.2.subset (by simp)) (hn v)

/-- A bracketed call that has done `Unlock` has done `CloseTab`. -/
theorem Bracketed.closed {T q : List Event} (hT : Bracketed T) (h : q <+: T)
    (hu : Event.unlock ∈ q) : ∃ t, Event.closeTab t ∈ q := by
  obtain ⟨u, mid, tail, rfl, hmid, htail⟩ := hT
  match q, h, hu with
  | [a], h, hu =>
    simp only [List.cons_prefix_cons] at h
    simp [h.1] at hu
  | a :: b :: q', h, hu =>
    simp only [List.cons_prefix_cons] at h
    have hu' : Event.unlock ∈ q' := by simpa [h.1, h.2.1] using hu
    obtain ⟨t, ht⟩ := rest_closed mid tail q' hmid htail h.2.2 hu'
    exact ⟨t, by simp [ht]⟩

/-! ## Schedules -/

theorem Schedule.project_append {ι : Type} [DecidableEq ι] (s t : Schedule ι) (i : ι) :
    Schedule.project (s ++ t) i = Schedule.project s i ++ Schedule.project t i := by
  simp [Schedule.project]

theorem Schedule.project_concat_self {ι : Type} [DecidableEq ι] (p : Schedule ι) (k : ι) (e : Event) :
    Schedule.project (p ++ [(k, e)]) k = Schedule.project p k ++ [e] := by
  simp [Schedule.project]

theorem Schedule.project_concat_other {ι : Type} [DecidableEq ι] (p : Schedule ι) (k i : ι) (e : Event) (h : i ≠ k) :
    Schedule.project (p ++ [(k, e)]) i = Schedule.project p i := by
  have h' : ¬ k = i := fun e => h e.symm
  simp [Schedule.project, List.filter_cons, h']

theorem Schedule.mem_project {ι : Type} [DecidableEq ι] (s : Schedule ι) (i : ι) (e : Event) :
    e ∈ Schedule.project s i ↔ (i, e) ∈ s := by
  simp only [Schedule.project, List.mem_map, List.mem_filter, decide_eq_true_eq]
  constructor
  · rintro ⟨⟨k, e'⟩, ⟨hmem, hk⟩, he⟩
    simp only at hk he
    subst hk; subst he
    exact hmem
  · intro h
    exact ⟨(i, e), ⟨h, rfl⟩, rfl⟩

theorem Schedule.project_prefix {ι : Type} [DecidableEq ι] {p s : Schedule ι} (h : p <+: s) (i : ι) :
    Schedule.project p i <+: Schedule.project s i :=
  (h.filter _).map _

theorem mutexRun_concat {ι : Type} (p : Schedule ι) (x : ι × Event) :
    mutexRun (p ++ [x]) = (mutexRun p).bind (fun locked => mutexStep locked x.2) := by
  simp [mutexRun, List.foldl_append]

theorem mutexFold_none {ι : Type} (r : Schedule ι) :
    r.foldl (fun st x => st.bind (fun locked => mutexStep locked x.2)) none = none := by
  induction r with
  | nil => rfl
  | cons x r ih => simpa using ih

/-- What could happen as a whole could happen up to any instant. -/
theorem mutexRun_prefix {ι : Type} {p s : Schedule ι} (h : p <+: s) (hs : (mutexRun s).isSome = true) :
    (mutexRun p).isSome = true := by
  obtain ⟨r, rfl⟩ := h
  cases hp : mutexRun p with
  | some st => rfl
  | none =>
    unfold mutexRun at hs hp
    rw [List.foldl_append, hp, mutexFold_none] at hs
    simp at hs

theorem mutexStep_other (st : Bool) (e : Event) (h1 : e ≠ .lock) (h2 : e ≠ .unlock) :
    mutexStep st e = some st := by
  cases e <;> simp_all [mutexStep]

theorem inCritical_concat (q : List Event) (e : Event) (h1 : e ≠ .lock) (h2 : e ≠ .unlock) :
    inCritical (q ++ [e]) ↔ inCritical q := by
  have h1' : ¬ Event.lock = e := fun h => h1 h.symm
  have h2' : ¬ Event.unlock = e := fun h => h2 h.symm
  simp [inCritical, h1', h2']

/-- The mutex invariant: at every instant at most one call is between lock
acquisition and lock release, and none is while the mutex is unlocked. -/
theorem mutex_invariant {ι : Type} [DecidableEq ι] (T : ι → List Event) (hT : ∀ i, Bracketed (T i)) (p : Schedule ι) :
    (∀ i, Schedule.project p i <+: T i) → ∀ st, mutexRun p = some st →
      (∀ i j, inCritical (Schedule.project p i) → inCritical (Schedule.project p j) → i = j) ∧
      (st = false → ∀ i, ¬ inCritical (Schedule.project p i)) := by
  induction p using List.reverseRecOn with
  | nil =>
    intro _ st _
    have hno : ∀ i : ι, ¬ inCritical (Schedule.project ([] : Schedule ι) i) := by
      intro i h
      simp [inCritical, Schedule.project] at h
    exact ⟨fun i j hi _ => absurd hi (hno i), fun _ => hno⟩
  | append_singleton p x ih =>
    obtain ⟨k, e⟩ := x
    intro hpre st hrun
    have hpre' : ∀ i, Schedule.project p i <+: T i := fun i =>
      (Schedule.project_prefix (List.prefix_append p [(k, e)]) i).trans (hpre i)
    rw [mutexRun_concat] at hrun
    cases hp : mutexRun p with
    | none => simp [hp] at hrun
    | some st0 =>
      simp only [hp, Option.some_bind] at hrun
      obtain ⟨huniq, hfree⟩ := ih hpre' st0 hp
      have hk : Schedule.project p k ++ [e] <+: T k := by
        rw [← Schedule.project_concat_self]
        exact hpre k
      have hother : ∀ i, i ≠ k →
          Schedule.project (p ++ [(k, e)]) i = Schedule.project p i :=
        fun i hi => Schedule.project_concat_other p k i e hi
      by_cases hl : e = .lock
      · subst hl
        have hst0 : st0 = false := by
          cases st0 with
          | false => rfl
          | true => simp [mutexStep] at hrun
        have hst : st = true := by
          subst hst0
          simpa [mutexStep] using hrun.symm
        have hnone := hfree hst0
        have honly : ∀ i, inCritical (Schedule.project (p ++ [(k, Event.lock)]) i) → i = k := by
          intro i hi
          by_contra hne
          rw [hother i hne] at hi
          exact hnone i hi
        refine ⟨fun i j hi hj => (honly i hi).trans (honly j hj).symm, ?_⟩
        intro h
        rw [hst] at h
        cases h
      · by_cases hu : e = .unlock
        · subst hu
          have hlock : Event.lock ∈ Schedule.project p k := by
            have := (hT k).lock_mem hk (by simp)
            simpa using this
          have hkin : inCritical (Schedule.project p k) := ⟨hlock, (hT k).unlock_last hk⟩
          have hnone : ∀ i, ¬ inCritical (Schedule.project (p ++ [(k, Event.unlock)]) i) := by
            intro i hi
            by_cases hik : i = k
            · subst hik
              rw [Schedule.project_concat_self] at hi
              exact hi.2 (by simp)
            · rw [hother i hik] at hi
              exact hik (huniq i k hi hkin)
          exact ⟨fun i j hi _ => absurd hi (hnone i), fun _ => hnone⟩
        · rw [mutexStep_other st0 e hl hu] at hrun
          have hst : st = st0 := by simpa using hrun.symm
          have hiff : ∀ i, inCritical (Schedule.project (p ++ [(k, e)]) i) ↔
              inCritical (Schedule.project p i) := by
            intro i
            by_cases hik : i = k
            · subst hik
              rw [Schedule.project_concat_self]
              exact inCritical_concat _ e hl hu
            · rw [hother i hik]
          refine ⟨fun i j hi hj => huniq i j ((hiff i).1 hi) ((hiff j).1 hj), ?_⟩
          intro h i hi
          exact hfree (by rw [← hst]; exact h) i ((hiff i).1 hi)


/-! ## Single flight -/

/-- C9 (single-flight invariant).  Take any family of concurrent calls of
`fetchHTML`, for the same or distinct URLs, and any interleaving `s` of their
actions in which every call has done an initial part of its own actions and
every `Lock` happened on an unlocked `fetchHTMLMu`.  Then at every instant (every
initial part `p` of `s`) at most one call is between lock acquisition and lock
release; and whenever a tab-open of call `j` comes after a tab-open of call `i`,
the two calls differ and the tab-close of `i` lies between them. -/
theorem single_flight {ι : Type} [DecidableEq ι] (calls : ι → RemoteDebugger × String)
    (s : Schedule ι)
    (hcalls : ∀ i, Schedule.project s i <+: (fetchHTML (calls i).1 (calls i).2).trace)
    (hmutex : (mutexRun s).isSome = true) :
    (∀ p, p <+: s → ∀ i j, inCritical (Schedule.project p i) →
      inCritical (Schedule.project p j) → i = j) ∧
    (∀ a b c i j u v, s = a ++ (i, Event.newTab u) :: (b ++ (j, Event.newTab v) :: c) →
      i ≠ j ∧ ∃ t, (i, Event.closeTab t) ∈ b) := by
  have hT : ∀ i, Bracketed (fetchHTML (calls i).1 (calls i).2).trace :=
    fun i => fetchHTML_bracketed _ _
  have hinv : ∀ p, p <+: s → ∀ i j, inCritical (Schedule.project p i) →
      inCritical (Schedule.project p j) → i = j := by
    intro p hp
    have hpre : ∀ i, Schedule.project p i <+: (fetchHTML (calls i).1 (calls i).2).trace :=
      fun i => (Schedule.project_prefix hp i).trans (hcalls i)
    have hsome := mutexRun_prefix hp hmutex
    cases hrun : mutexRun p with
    | none => simp [hrun] at hsome
    | some st => exact (mutex_invariant _ hT p hpre st hrun).1
  refine ⟨hinv, ?_⟩
  intro a b c i j u v hs
  have hp1 : a ++ [(i, Event.newTab u)] <+: s := ⟨b ++ (j, Event.newTab v) :: c, by simp [hs]⟩
  have hp2 : (a ++ [(i, Event.newTab u)] ++ b) ++ [(j, Event.newTab v)] <+: s :=
    ⟨c, by simp [hs]⟩
  -- the later call has just opened its tab
  have hj := (Schedule.project_prefix hp2 j).trans (hcalls j)
  rw [Schedule.project_concat_self] at hj
  have hjq := (hT j).newTab_second hj
  have hjcrit : inCritical (Schedule.project
      ((a ++ [(i, Event.newTab u)] ++ b) ++ [(j, Event.newTab v)]) j) := by
    rw [Schedule.project_concat_self, hjq]
    simp [inCritical]
  -- the two calls differ
  have hne : i ≠ j := by
    intro h
    subst h
    have hmem : Event.newTab u ∈ Schedule.project (a ++ [(i, Event.newTab u)] ++ b) i :=
      (Schedule.mem_project _ _ _).2 (by simp)
    rw [hjq] at hmem
    simp at hmem
  -- the earlier call opened its tab right after locking
  have hi := (Schedule.project_prefix hp1 i).trans (hcalls i)
  rw [Schedule.project_concat_self] at hi
  have hiq := (hT i).newTab_second hi
  have hproj : Schedule.project ((a ++ [(i, Event.newTab u)] ++ b) ++ [(j, Event.newTab v)]) i
      = [Event.lock, Event.newTab u] ++ Schedule.project b i := by
    rw [Schedule.project_concat_other _ _ _ _ hne, Schedule.project_append,
      Schedule.project_concat_self, hiq]
    rfl
  have hunlock : Event.unlock ∈
      Schedule.project ((a ++ [(i, Event.newTab u)] ++ b) ++ [(j, Event.newTab v)]) i := by
    by_contra hno
    have hicrit : inCritical (Schedule.project
        ((a ++ [(i, Event.newTab u)] ++ b) ++ [(j, Event.newTab v)]) i) :=
      ⟨by rw [hproj]; simp, hno⟩
    exact hne (hinv _ hp2 i j hicrit hjcrit)
  obtain ⟨t, ht⟩ := (hT i).closed ((Schedule.project_prefix hp2 i).trans (hcalls i)) hunlock
  rw [hproj] at ht
  have ht' : Event.closeTab t ∈ Schedule.project b i := by simpa using ht
  exact ⟨hne, t, (Schedule.mem_project b i _).1 ht'⟩

/-- Witness of C9: the first call runs to its end, then the second call has locked
and opened its tab. -/
theorem single_flight_witness :
    (∀ p, p <+: sampleSchedule → ∀ i j, inCritical (Schedule.project p i) →
      inCritical (Schedule.project p j) → i = j) ∧
    (∀ a b c i j u v,
      sampleSchedule = a ++ (i, Event.newTab u) :: (b ++ (j, Event.newTab v) :: c) →
      i ≠ j ∧ ∃ t, (i, Event.closeTab t) ∈ b) :=
  single_flight sampleCalls sampleSchedule (by intro i; cases i <;> decide) (by decide)

end Domproxy
